import Mathlib

/-!
Shallow embedding of the moontest UI-regression engine
(`src/moontest/moontest.py`).

The Python program is asynchronous and effectful.  We embed it with an
explicit machine state `St` (logical clock in milliseconds, ordered event
trace, contents of the `results.json` store) threaded through every
function, and an oracle environment `Env` giving the outcome of each
external operation (browser launch, navigation, screenshot capture, image
open/encode, vision-model query, JSON dump).  Python exceptions become
`Except String`; the carried string is the exception's message (`str(e)`).
Wall-clock reads (`datetime.now()`) return the current logical time;
`asyncio.sleep` advances it.  The `strftime` timestamp is abstracted as the
decimal rendering of the logical time.
-/

/-- Mirrors `Config` (moontest.py lines 20-35).  `model_path` validation and
directory creation happen in `__post_init__` and are not needed by any
claim; paths are abstract strings.  The viewport dict is a width-height
pair. -/
structure Config where
  model_path : String
  screenshot_dir : String
  default_viewport : Nat × Nat := (1280, 720)
  default_timeout : Nat := 30000
  retry_attempts : Nat := 3
  retry_delay : Nat := 1000
deriving Repr, DecidableEq

/-- Mirrors `UIQuery` (lines 37-42).  `tolerance` is declared in the source
but never consulted; it is kept as a rational stand-in for the float. -/
structure UIQuery where
  question : String
  expected_response : String
  screenshot_interval_ms : Option Int := none
  tolerance : Rat := (8 : Rat) / 10
deriving Repr, DecidableEq

/-- Mirrors `UITest` (lines 44-49). -/
structure UITest where
  name : String
  url : String
  queries : List UIQuery
  viewport : Option (Nat × Nat) := none
deriving Repr, DecidableEq

/-- Mirrors `QueryResult` (lines 51-57).  Screenshots are path strings. -/
structure QueryResult where
  query : UIQuery
  actual_response : String
  screenshots : List String
  passed : Option Bool := none
  error : Option String := none
deriving Repr, DecidableEq

/-- Mirrors `TestResult` (lines 59-65).  Times are logical milliseconds. -/
structure TestResult where
  test : UITest
  query_results : List QueryResult
  start_time : Nat
  end_time : Option Nat := none
  error : Option String := none
deriving Repr, DecidableEq

/-- One element of the `queries` list built by `TestResult.to_dict`
(lines 74-84). -/
structure QueryRecord where
  question : String
  expected : String
  actual : String
  passed : Option Bool
  error : Option String
  screenshots : List String
deriving Repr, DecidableEq

/-- The dict built by `TestResult.to_dict` (lines 67-85).  ISO-8601
rendering of datetimes is abstracted to the underlying logical times. -/
structure TestRecord where
  test_name : String
  url : String
  start_time : Nat
  end_time : Option Nat
  error : Option String
  queries : List QueryRecord
deriving Repr, DecidableEq

/-- Mirrors `TestResult.to_dict` (lines 67-85). -/
def TestResult.to_dict (r : TestResult) : TestRecord :=
  { test_name := r.test.name
    url := r.test.url
    start_time := r.start_time
    end_time := r.end_time
    error := r.error
    queries := r.query_results.map (fun qr =>
      { question := qr.query.question
        expected := qr.query.expected_response
        actual := qr.actual_response
        passed := qr.passed
        error := qr.error
        screenshots := qr.screenshots }) }

/-- Contents of the persisted `results.json` file: absent, present but
unreadable (`json.load` raises with the given message), or a readable list
of records. -/
inductive StoreFile where
  | missing
  | corrupt (msg : String)
  | valid (records : List TestRecord)
deriving Repr, DecidableEq

/-- Observable events emitted while the engine runs, in order.
`saveCalled` marks the single entry into `TestRunner._save_results`. -/
inductive Event where
  | logged (msg : String)
  | sleepMs (ms : Int)
  | shot (path : String)
  | contextClosed
  | browserClosed
  | saveCalled
  | storeWritten (records : List TestRecord)
deriving Repr, DecidableEq

/-- Machine state threaded through the embedded program: the logical clock
(ms), the number of browser-launch attempts made so far (used to index the
launch oracle), the event trace, and the store file. -/
structure St where
  time : Nat
  launches : Nat
  events : List Event
  store : StoreFile
deriving Repr, DecidableEq

/-- Append an event to the trace. -/
def St.emit (st : St) (e : Event) : St :=
  { st with events := st.events ++ [e] }

/-- Model of `asyncio.sleep(ms / 1000)`: records the requested duration and
advances the clock (a negative request returns immediately). -/
def St.sleep (st : St) (ms : Int) : St :=
  { st with events := st.events ++ [Event.sleepMs ms], time := st.time + ms.toNat }

/-- Oracle environment: outcome of every external operation.  `launch i`
is the outcome of the i-th browser-launch attempt of the whole run
(`playwright.start`, `chromium.launch`, `new_context`, `new_page`
condensed into one fallible step).  `query_model` takes the encoded image
and the question and yields `result` at key `answer`. -/
structure Env where
  launch : Nat → Except String Unit
  goto : String → Except String Unit
  screenshot : String → Except String Unit
  open_image : String → Except String String
  encode_image : String → Except String String
  query_model : String → String → Except String String
  dump : List TestRecord → Except String Unit

/-- Abstraction of `datetime.now().strftime` (line 138). -/
def timestampStr (t : Nat) : String := toString t

/-- Mirrors `ScreenshotManager._get_screenshot_path` (lines 137-142); the
current state supplies `datetime.now()`. -/
def ScreenshotManager._get_screenshot_path (cfg : Config) (test : UITest)
    (index : Option Int) (st : St) : String :=
  let timestamp := timestampStr st.time
  let filename := test.name ++ "_" ++ timestamp
  let filename := match index with
    | some i => filename ++ "_" ++ toString i
    | none => filename
  cfg.screenshot_dir ++ "/" ++ filename ++ ".png"

/-- The `logger.warning` text of a failed setup attempt (line 106). -/
def warnMsg (attemptNo : Nat) (e : String) : String :=
  "Browser setup failed, attempt " ++ toString attemptNo ++ ": " ++ e

/-- Loop body of `ScreenshotManager._setup_browser` (lines 91-107),
structurally recursive on the number of attempts still allowed
(`remaining = retry_attempts - attempt`; `attempt` itself only feeds the
log text).  `none` models the Python loop finishing without a `return`
(only possible when `retry_attempts = 0`), in which case the function
yields Python's `None`. -/
def setupGo (cfg : Config) (env : Env) :
    Nat → Nat → St → Option (Except String Unit) × St
  | _, 0, st => (none, st)
  | attempt, Nat.succ rem, st =>
    let i := st.launches
    let st1 := { st with launches := i + 1 }
    match env.launch i with
    | Except.ok _ => (some (Except.ok ()), st1)
    | Except.error e =>
      match rem with
      | 0 => (some (Except.error e), st1)
      | Nat.succ _ =>
        let st2 := (st1.emit (Event.logged (warnMsg (attempt + 1) e))).sleep
          (Int.ofNat cfg.retry_delay)
        setupGo cfg env (attempt + 1) rem st2

/-- Mirrors `ScreenshotManager._setup_browser` (lines 91-107). -/
def ScreenshotManager._setup_browser (cfg : Config) (env : Env) (st : St) :
    Option (Except String Unit) × St :=
  setupGo cfg env 0 cfg.retry_attempts st

/-- Number of elements of Python's `range(start, stop, step)` (without
division by a possibly-zero step). -/
def pyRangeLen (start stop step : Int) : Nat :=
  if 0 < step then
    if start < stop then (stop - start - 1).toNat / step.toNat + 1 else 0
  else if step < 0 then
    if stop < start then (start - stop - 1).toNat / (-step).toNat + 1 else 0
  else 0

/-- Python's `range(start, stop, step)` as a list. -/
def pyRange (start stop step : Int) : List Int :=
  (List.range (pyRangeLen start stop step)).map (fun i => start + step * Int.ofNat i)

/-- One screenshot of the single-shot branch of `capture` (lines 126-129):
compute the path from the current time, take the screenshot, return the
one-element list. -/
def singleShotCapture (cfg : Config) (env : Env) (test : UITest)
    (st : St) : Except String (List String) × St :=
  let path := ScreenshotManager._get_screenshot_path cfg test none st
  match env.screenshot path with
  | Except.error e => (Except.error e, st)
  | Except.ok _ => (Except.ok [path], st.emit (Event.shot path))

/-- The dynamic-capture loop of `capture` (lines 119-124): for each index
produced by `range(0, interval*5, interval)`, compute the path, take the
screenshot, append it, then sleep the interval. -/
def captureLoop (cfg : Config) (env : Env) (test : UITest) (d : Int) :
    List Int → List String → St → Except String (List String) × St
  | [], acc, st => (Except.ok acc, st)
  | i :: rest, acc, st =>
    let path := ScreenshotManager._get_screenshot_path cfg test (some i) st
    match env.screenshot path with
    | Except.error e => (Except.error e, st)
    | Except.ok _ =>
      let st1 := (st.emit (Event.shot path)).sleep d
      captureLoop cfg env test d rest (acc ++ [path]) st1

/-- The `try` block of `capture` (lines 114-129): navigate, then either the
dynamic loop or a single shot.  Note the Python guard is the truthiness
test `if query.screenshot_interval_ms:`, so an interval equal to `0` takes
the single-shot branch. -/
def captureBody (cfg : Config) (env : Env) (test : UITest) (query : UIQuery)
    (st : St) : Except String (List String) × St :=
  match env.goto test.url with
  | Except.error e => (Except.error e, st)
  | Except.ok _ =>
    match query.screenshot_interval_ms with
    | some d =>
      if d = 0 then singleShotCapture cfg env test st
      else
        let duration := d * 5
        captureLoop cfg env test d (pyRange 0 duration d) [] st
    | none => singleShotCapture cfg env test st

/-- The message of the `TypeError` Python raises when `_setup_browser`
falls through its loop (zero retry attempts) and `capture` unpacks the
resulting `None`. -/
def unpackNoneMsg : String := "cannot unpack non-iterable NoneType object"

/-- Mirrors `ScreenshotManager.capture` (lines 109-135): set up the
session, run the body, and in a `finally` close the context and the
browser; the body's outcome (screenshot list or exception) is passed on
unchanged after the closes. -/
def ScreenshotManager.capture (cfg : Config) (env : Env) (test : UITest)
    (query : UIQuery) (st : St) : Except String (List String) × St :=
  match ScreenshotManager._setup_browser cfg env st with
  | (none, st1) => (Except.error unpackNoneMsg, st1)
  | (some (Except.error e), st1) => (Except.error e, st1)
  | (some (Except.ok _), st1) =>
    let (res, st2) := captureBody cfg env test query st1
    let st3 := (st2.emit Event.contextClosed).emit Event.browserClosed
    (res, st3)

/-- The per-screenshot body of `VisionAnalyzer.analyze` (lines 156-160):
open the image, encode it, query the model, extract the answer. -/
def analyzeStep (env : Env) (question : String) (path : String) :
    Except String String :=
  match env.open_image path with
  | Except.error e => Except.error e
  | Except.ok image =>
    match env.encode_image image with
    | Except.error e => Except.error e
    | Except.ok encoded_image =>
      match env.query_model encoded_image question with
      | Except.error e => Except.error e
      | Except.ok answer => Except.ok answer

/-- The `for screenshot_path in screenshots` loop of `analyze`
(lines 153-163), accumulating the `answers` list; the first failure
aborts the whole loop. -/
def analyzeLoop (env : Env) (question : String) :
    List String → List String → Except String (List String)
  | [], answers => Except.ok answers
  | p :: rest, answers =>
    match analyzeStep env question p with
    | Except.error e => Except.error e
    | Except.ok a => analyzeLoop env question rest (answers ++ [a])

/-- Mirrors `VisionAnalyzer.analyze` (lines 152-165):
`answers[-1] if answers else ""`. -/
def VisionAnalyzer.analyze (env : Env) (screenshots : List String)
    (query : UIQuery) : Except String String :=
  match analyzeLoop env query.question screenshots [] with
  | Except.error e => Except.error e
  | Except.ok answers => Except.ok (answers.getLast?.getD "")

/-- The `json.load` step of `_save_results` (lines 212-216): a missing
file yields the empty list, an unreadable one raises. -/
def readStore (st : St) : Except String (List TestRecord) :=
  match st.store with
  | StoreFile.missing => Except.ok []
  | StoreFile.corrupt msg => Except.error msg
  | StoreFile.valid records => Except.ok records

/-- Mirrors `TestRunner._save_results` (lines 209-223): read the existing
list (missing file ⇒ empty list), append `result.to_dict()`, rewrite the
file; any exception in reading or writing is caught and logged.  The
`saveCalled` event marks the entry into the function. -/
def TestRunner._save_results (cfg : Config) (env : Env) (result : TestResult)
    (st : St) : St :=
  let st0 := st.emit Event.saveCalled
  match readStore st0 with
  | Except.error e =>
    st0.emit (Event.logged ("Failed to save results: " ++ e))
  | Except.ok results =>
    let results' := results ++ [result.to_dict]
    match env.dump results' with
    | Except.error e =>
      st0.emit (Event.logged ("Failed to save results: " ++ e))
    | Except.ok _ =>
      { st0.emit (Event.storeWritten results') with store := StoreFile.valid results' }

/-- One iteration of the query loop in `TestRunner.run` (lines 184-195):
capture then analyze, building the `QueryResult` (whose `passed` and
`error` fields keep their `None` defaults). -/
def runStep (cfg : Config) (env : Env) (test : UITest) (query : UIQuery)
    (st : St) : Except String QueryResult × St :=
  match ScreenshotManager.capture cfg env test query st with
  | (Except.error e, st1) => (Except.error e, st1)
  | (Except.ok screenshots, st1) =>
    match VisionAnalyzer.analyze env screenshots query with
    | Except.error e => (Except.error e, st1)
    | Except.ok actual_response =>
      (Except.ok
        { query := query, actual_response := actual_response,
          screenshots := screenshots }, st1)

/-- The `for query in test.queries` loop of `run` together with its
`except` clause: on the first failure return its message (`str(e)`) and
the results accumulated so far; the remaining queries are not visited. -/
def runQueries (cfg : Config) (env : Env) (test : UITest) :
    List UIQuery → List QueryResult → St →
    (Option String × List QueryResult) × St
  | [], acc, st => ((none, acc), st)
  | q :: rest, acc, st =>
    match runStep cfg env test q st with
    | (Except.error e, st1) => ((some e, acc), st1)
    | (Except.ok qr, st1) => runQueries cfg env test rest (acc ++ [qr]) st1

/-- Mirrors `TestRunner.run` (lines 173-207): record the start time, run
the query loop (errors captured into the result), then in a `finally` set
the end time and persist via `_save_results`; the `TestResult` is returned
in every case. -/
def TestRunner.run (cfg : Config) (env : Env) (test : UITest) (st : St) :
    TestResult × St :=
  let start_time := st.time
  let ((err, query_results), st1) := runQueries cfg env test test.queries [] st
  let result : TestResult :=
    { test := test, query_results := query_results, start_time := start_time,
      end_time := some st1.time, error := err }
  let st2 := TestRunner._save_results cfg env result st1
  (result, st2)

/-! ## Concrete fixtures

Small closed instances used to evaluate the embedded program on concrete
inputs. -/

/-- A concrete configuration. -/
def cfgW : Config :=
  { model_path := "moondream.bin", screenshot_dir := "shots" }

/-- The initial machine state: clock at zero, no launches, empty trace,
no `results.json` yet. -/
def st0 : St :=
  { time := 0, launches := 0, events := [], store := StoreFile.missing }

/-- An environment where every external operation succeeds and the model
always answers `"yes"`. -/
def envOk : Env :=
  { launch := fun _ => Except.ok ()
    goto := fun _ => Except.ok ()
    screenshot := fun _ => Except.ok ()
    open_image := fun p => Except.ok p
    encode_image := fun i => Except.ok i
    query_model := fun _ _ => Except.ok "yes"
    dump := fun _ => Except.ok () }

/-- Like `envOk` but the model's answer is the empty string. -/
def envBlank : Env :=
  { envOk with query_model := fun _ _ => Except.ok "" }

/-- Like `envOk` but opening any image fails. -/
def envNoImage : Env :=
  { envOk with open_image := fun _ => Except.error "cannot open image" }

/-- Like `envOk` but every browser-launch attempt fails with a message
naming the attempt. -/
def envNoLaunch : Env :=
  { envOk with launch := fun i => Except.error ("no browser " ++ toString i) }

/-- Like `envOk` but launch attempts 0 and 1 fail and later ones succeed. -/
def envFlaky : Env :=
  { envOk with launch := fun i =>
      if i < 2 then Except.error ("no browser " ++ toString i) else Except.ok () }

/-- A single-shot query. -/
def qStatic : UIQuery :=
  { question := "is the button green", expected_response := "yes" }

/-- A query with a zero screenshot interval: the field is present but
Python-falsy. -/
def qZero : UIQuery :=
  { qStatic with screenshot_interval_ms := some 0 }

/-- A dynamic query sampling every 100 ms. -/
def qDyn : UIQuery :=
  { qStatic with screenshot_interval_ms := some 100 }

/-- A test with one static query. -/
def testW : UITest :=
  { name := "t", url := "http://local/fixture", queries := [qStatic] }

/-- A test with two static queries. -/
def testW2 : UITest :=
  { testW with queries := [qStatic, qStatic] }

/-- A finished test result used to exercise the Result Store. -/
def resultW : TestResult :=
  { test := testW, query_results := [], start_time := 0, end_time := some 1 }

/-- A second test result with an error, to exercise ordering in the
store. -/
def resultW2 : TestResult :=
  { test := testW2, query_results := [], start_time := 2, end_time := some 3,
    error := some "boom" }

/-- A state whose `results.json` exists but does not parse. -/
def stCorrupt : St :=
  { st0 with store := StoreFile.corrupt "invalid json" }

/-- Persist several test results one after the other, oldest first
(iterated `TestRunner._save_results`). -/
def saveAll (cfg : Config) (env : Env) : List TestResult → St → St
  | [], st => st
  | r :: rs, st => saveAll cfg env rs (TestRunner._save_results cfg env r st)

/-- The trace the dynamic-capture loop leaves behind: each captured
screenshot is followed by a sleep of the sampling interval. -/
def dynTrail (d : Int) : List String → List Event
  | [] => []
  | p :: rest => Event.shot p :: Event.sleepMs d :: dynTrail d rest

/-- The trace left by `k` failed, retried setup attempts: a warning log
followed by the fixed retry delay, where `m j` is the message of the j-th
failure and `attempt` the zero-based number of the first one. -/
def retryTrail (cfg : Config) (m : Nat → String) : Nat → Nat → List Event
  | _, 0 => []
  | attempt, Nat.succ k =>
    Event.logged (warnMsg (attempt + 1) (m 0)) ::
      Event.sleepMs (Int.ofNat cfg.retry_delay) ::
      retryTrail cfg (fun j => m (j + 1)) (attempt + 1) k

/-! ## Helper lemmas -/

/-- `st'` is reachable from `st` without entering the Result Store: time
never decreases and the trace only grows, by events other than
`saveCalled`. -/
def StExtends (st st' : St) : Prop :=
  st.time ≤ st'.time ∧
    ∃ Δ, st'.events = st.events ++ Δ ∧ Event.saveCalled ∉ Δ

theorem stExtends_refl (st : St) : StExtends st st :=
  ⟨le_refl _, [], by simp, by simp⟩

theorem stExtends_trans {st₁ st₂ st₃ : St} (h₁ : StExtends st₁ st₂)
    (h₂ : StExtends st₂ st₃) : StExtends st₁ st₃ := by
  obtain ⟨ht₁, Δ₁, he₁, hn₁⟩ := h₁
  obtain ⟨ht₂, Δ₂, he₂, hn₂⟩ := h₂
  refine ⟨le_trans ht₁ ht₂, Δ₁ ++ Δ₂, ?_, ?_⟩
  · rw [he₂, he₁, List.append_assoc]
  · simp only [List.mem_append]
    rintro (h | h)
    · exact hn₁ h
    · exact hn₂ h

theorem stExtends_emit (st : St) (e : Event) (he : e ≠ Event.saveCalled) :
    StExtends st (st.emit e) := by
  refine ⟨le_refl _, [e], rfl, ?_⟩
  simp [he.symm]

theorem stExtends_sleep (st : St) (ms : Int) :
    StExtends st (st.sleep ms) := by
  refine ⟨Nat.le_add_right _ _, [Event.sleepMs ms], rfl, by simp⟩

theorem stExtends_launches (st : St) :
    StExtends st { st with launches := st.launches + 1 } := by
  refine ⟨le_refl _, [], by simp, by simp⟩

theorem setupGo_extends (cfg : Config) (env : Env) :
    ∀ attempt rem st, StExtends st (setupGo cfg env attempt rem st).2 := by
  intro attempt rem
  induction rem generalizing attempt with
  | zero => intro st; exact stExtends_refl st
  | succ rem ih =>
    intro st
    simp only [setupGo]
    rcases hL : env.launch st.launches with e | u
    · rcases rem with _ | rem'
      · exact stExtends_launches st
      · refine stExtends_trans ?_ (ih (attempt + 1) _)
        refine stExtends_trans (stExtends_launches st) ?_
        exact stExtends_trans (stExtends_emit _ _ (by simp)) (stExtends_sleep _ _)
    · exact stExtends_launches st

theorem singleShotCapture_extends (cfg : Config) (env : Env) (test : UITest)
    (st : St) : StExtends st (singleShotCapture cfg env test st).2 := by
  simp only [singleShotCapture]
  rcases env.screenshot (ScreenshotManager._get_screenshot_path cfg test none st)
    with e | u
  · exact stExtends_refl st
  · exact stExtends_emit _ _ (by simp)

theorem captureLoop_extends (cfg : Config) (env : Env) (test : UITest)
    (d : Int) : ∀ idxs acc st,
    StExtends st (captureLoop cfg env test d idxs acc st).2 := by
  intro idxs
  induction idxs with
  | nil => intro acc st; exact stExtends_refl st
  | cons i rest ih =>
    intro acc st
    simp only [captureLoop]
    rcases env.screenshot (ScreenshotManager._get_screenshot_path cfg test (some i) st)
      with e | u
    · exact stExtends_refl st
    · exact stExtends_trans
        (stExtends_trans (stExtends_emit _ _ (by simp)) (stExtends_sleep _ _))
        (ih _ _)

theorem captureBody_extends (cfg : Config) (env : Env) (test : UITest)
    (query : UIQuery) (st : St) :
    StExtends st (captureBody cfg env test query st).2 := by
  simp only [captureBody]
  rcases env.goto test.url with e | u
  · exact stExtends_refl st
  · rcases query.screenshot_interval_ms with _ | d
    · exact singleShotCapture_extends cfg env test st
    · by_cases hd : d = 0
      · simp only [hd, if_pos rfl]
        exact singleShotCapture_extends cfg env test st
      · simp only [if_neg hd]
        exact captureLoop_extends cfg env test d _ [] st

theorem capture_extends (cfg : Config) (env : Env) (test : UITest)
    (query : UIQuery) (st : St) :
    StExtends st (ScreenshotManager.capture cfg env test query st).2 := by
  simp only [ScreenshotManager.capture]
  rcases hS : ScreenshotManager._setup_browser cfg env st with ⟨o, st1⟩
  have hext : StExtends st st1 := by
    have := setupGo_extends cfg env 0 cfg.retry_attempts st
    rw [ScreenshotManager._setup_browser] at hS
    rw [hS] at this
    exact this
  rcases o with _ | e
  · exact hext
  · rcases e with e | u
    · exact hext
    · refine stExtends_trans hext ?_
      refine stExtends_trans (captureBody_extends cfg env test query st1) ?_
      exact stExtends_trans (stExtends_emit _ _ (by simp)) (stExtends_emit _ _ (by simp))

theorem runStep_extends (cfg : Config) (env : Env) (test : UITest)
    (query : UIQuery) (st : St) :
    StExtends st (runStep cfg env test query st).2 := by
  rcases hC : ScreenshotManager.capture cfg env test query st with ⟨res, st1⟩
  have hext : StExtends st st1 := by
    have := capture_extends cfg env test query st
    rw [hC] at this
    exact this
  rcases res with e | shots
  · simp only [runStep, hC]
    exact hext
  · rcases hA : VisionAnalyzer.analyze env shots query with e | a
    · simp only [runStep, hC, hA]
      exact hext
    · simp only [runStep, hC, hA]
      exact hext

theorem runQueries_extends (cfg : Config) (env : Env) (test : UITest) :
    ∀ qs acc st, StExtends st (runQueries cfg env test qs acc st).2 := by
  intro qs
  induction qs with
  | nil => intro acc st; exact stExtends_refl st
  | cons q rest ih =>
    intro acc st
    rcases hR : runStep cfg env test q st with ⟨res, st1⟩
    have hext : StExtends st st1 := by
      have := runStep_extends cfg env test q st
      rw [hR] at this
      exact this
    rcases res with e | qr
    · simp only [runQueries, hR]
      exact hext
    · simp only [runQueries, hR]
      exact stExtends_trans hext (ih _ _)

theorem runQueries_nil (cfg : Config) (env : Env) (test : UITest)
    (acc : List QueryResult) (st : St) :
    runQueries cfg env test [] acc st = ((none, acc), st) := rfl

/-- A successful pass over a first block of queries lets the loop continue
on the rest from the reached state. -/
theorem runQueries_append_ok (cfg : Config) (env : Env) (test : UITest) :
    ∀ qs₁ qs₂ acc st acc₁ st₁,
    runQueries cfg env test qs₁ acc st = ((none, acc₁), st₁) →
    runQueries cfg env test (qs₁ ++ qs₂) acc st =
      runQueries cfg env test qs₂ acc₁ st₁ := by
  intro qs₁
  induction qs₁ with
  | nil =>
    intro qs₂ acc st acc₁ st₁ h
    rw [runQueries_nil] at h
    simp only [Prod.mk.injEq] at h
    obtain ⟨⟨-, rfl⟩, rfl⟩ := h
    rfl
  | cons q rest ih =>
    intro qs₂ acc st acc₁ st₁ h
    rcases hR : runStep cfg env test q st with ⟨res, stn⟩
    rcases res with e | qr
    · rw [List.cons_append]
      simp only [runQueries, hR] at h ⊢
      exact absurd (congrArg (fun p => p.1.1) h) (by simp)
    · rw [List.cons_append]
      simp only [runQueries, hR] at h ⊢
      exact ih qs₂ (acc ++ [qr]) stn acc₁ st₁ h

/-- A first failure freezes the outcome: queries after the failing one
change nothing. -/
theorem runQueries_append_err (cfg : Config) (env : Env) (test : UITest) :
    ∀ qs₁ qs₂ acc st e acc₁ st₁,
    runQueries cfg env test qs₁ acc st = ((some e, acc₁), st₁) →
    runQueries cfg env test (qs₁ ++ qs₂) acc st = ((some e, acc₁), st₁) := by
  intro qs₁
  induction qs₁ with
  | nil =>
    intro qs₂ acc st e acc₁ st₁ h
    rw [runQueries_nil] at h
    exact absurd (congrArg (fun p => p.1.1) h) (by simp)
  | cons q rest ih =>
    intro qs₂ acc st e acc₁ st₁ h
    rcases hR : runStep cfg env test q st with ⟨res, stn⟩
    rcases res with e' | qr
    · rw [List.cons_append]
      simp only [runQueries, hR] at h ⊢
      exact h
    · rw [List.cons_append]
      simp only [runQueries, hR] at h ⊢
      exact ih qs₂ (acc ++ [qr]) stn e acc₁ st₁ h

/-- Without an error the loop visits every query and appends one result
per query. -/
theorem runQueries_ok_spec (cfg : Config) (env : Env) (test : UITest) :
    ∀ qs acc st acc₁ st₁,
    runQueries cfg env test qs acc st = ((none, acc₁), st₁) →
    ∃ p, acc₁ = acc ++ p ∧ p.length = qs.length := by
  intro qs
  induction qs with
  | nil =>
    intro acc st acc₁ st₁ h
    rw [runQueries_nil] at h
    refine ⟨[], ?_, rfl⟩
    have := congrArg (fun p => p.1.2) h
    simpa using this.symm
  | cons q rest ih =>
    intro acc st acc₁ st₁ h
    rcases hR : runStep cfg env test q st with ⟨res, stn⟩
    rcases res with e | qr
    · simp only [runQueries, hR] at h
      exact absurd (congrArg (fun p => p.1.1) h) (by simp)
    · simp only [runQueries, hR] at h
      obtain ⟨p, hp, hl⟩ := ih (acc ++ [qr]) stn acc₁ st₁ h
      refine ⟨qr :: p, ?_, by simp [hl]⟩
      rw [hp, List.append_assoc]
      rfl

/-- With an error the loop stops strictly before the end: fewer results
were appended than there are queries. -/
theorem runQueries_err_spec (cfg : Config) (env : Env) (test : UITest) :
    ∀ qs acc st e acc₁ st₁,
    runQueries cfg env test qs acc st = ((some e, acc₁), st₁) →
    ∃ p, acc₁ = acc ++ p ∧ p.length < qs.length := by
  intro qs
  induction qs with
  | nil =>
    intro acc st e acc₁ st₁ h
    rw [runQueries_nil] at h
    exact absurd (congrArg (fun p => p.1.1) h) (by simp)
  | cons q rest ih =>
    intro acc st e acc₁ st₁ h
    rcases hR : runStep cfg env test q st with ⟨res, stn⟩
    rcases res with e' | qr
    · simp only [runQueries, hR] at h
      refine ⟨[], ?_, by simp⟩
      have := congrArg (fun p => p.1.2) h
      simpa using this.symm
    · simp only [runQueries, hR] at h
      obtain ⟨p, hp, hl⟩ := ih (acc ++ [qr]) stn e acc₁ st₁ h
      refine ⟨qr :: p, ?_, by simpa using hl⟩
      rw [hp, List.append_assoc]
      rfl

/-- `_save_results` enters exactly once, emits `saveCalled` first, and the
rest of its trace never re-enters; the clock does not move. -/
theorem saveResults_events (cfg : Config) (env : Env) (result : TestResult)
    (st : St) :
    ∃ Δ, (TestRunner._save_results cfg env result st).events =
        st.events ++ [Event.saveCalled] ++ Δ ∧ Event.saveCalled ∉ Δ ∧
      (TestRunner._save_results cfg env result st).time = st.time := by
  rcases hS : st.store with _ | m | records
  · rcases hD : env.dump [result.to_dict] with e | u
    · refine ⟨[Event.logged ("Failed to save results: " ++ e)], ?_, by simp, ?_⟩ <;>
        simp [TestRunner._save_results, readStore, St.emit, hS, hD]
    · refine ⟨[Event.storeWritten [result.to_dict]], ?_, by simp, ?_⟩ <;>
        simp [TestRunner._save_results, readStore, St.emit, hS, hD]
  · refine ⟨[Event.logged ("Failed to save results: " ++ m)], ?_, by simp, ?_⟩ <;>
      simp [TestRunner._save_results, readStore, St.emit, hS]
  · rcases hD : env.dump (records ++ [result.to_dict]) with e | u
    · refine ⟨[Event.logged ("Failed to save results: " ++ e)], ?_, by simp, ?_⟩ <;>
        simp [TestRunner._save_results, readStore, St.emit, hS, hD]
    · refine ⟨[Event.storeWritten (records ++ [result.to_dict])], ?_, by simp, ?_⟩ <;>
        simp [TestRunner._save_results, readStore, St.emit, hS, hD]

/-! ## Claim theorems -/

/-- C1: `TestRunner.run` is a total function into `TestResult` (the engine
never raises out of `run`); when the capture-or-analysis step of a query
fails — after an error-free pass over the queries before it — the
failure's message is stored in `TestResult.error`, the collected
`query_results` are exactly those accumulated before the failure, and the
queries after the failing one are never attempted: the query loop's
outcome on the full list is already fixed at the failing query, whatever
`qs₂` contains. -/
theorem run_captures_failure_and_stops (cfg : Config) (env : Env)
    (test : UITest) (st : St) (qs₁ : List UIQuery) (q : UIQuery)
    (qs₂ : List UIQuery) (e : String) (acc₁ : List QueryResult) (st₁ : St)
    (hq : test.queries = qs₁ ++ q :: qs₂)
    (h₁ : runQueries cfg env test qs₁ [] st = ((none, acc₁), st₁))
    (h₂ : (runStep cfg env test q st₁).1 = Except.error e) :
    (TestRunner.run cfg env test st).1.error = some e ∧
    (TestRunner.run cfg env test st).1.query_results = acc₁ ∧
    runQueries cfg env test test.queries [] st =
      ((some e, acc₁), (runStep cfg env test q st₁).2) := by
  rcases hR : runStep cfg env test q st₁ with ⟨res, st₂⟩
  have hres : res = Except.error e := by
    have := congrArg Prod.fst hR
    rw [h₂] at this
    exact this.symm
  subst hres
  have hcons : runQueries cfg env test (q :: qs₂) acc₁ st₁ =
      ((some e, acc₁), st₂) := by
    simp only [runQueries, hR]
  have hfull : runQueries cfg env test test.queries [] st =
      ((some e, acc₁), st₂) := by
    rw [hq, runQueries_append_ok cfg env test qs₁ (q :: qs₂) [] st acc₁ st₁ h₁,
      hcons]
  refine ⟨?_, ?_, ?_⟩
  · simp only [TestRunner.run, hfull]
  · simp only [TestRunner.run, hfull]
  · rw [hfull]

/-- C1 witness: with an environment whose image-open step always fails,
a two-query test fails at the first query with that message, collects no
results, and the second query is never attempted. -/
theorem run_captures_failure_and_stops_witness :
    (testW2.queries = [] ++ qStatic :: [qStatic]) ∧
    ((TestRunner.run cfgW envNoImage testW2 st0).1.error =
        some "cannot open image" ∧
      (TestRunner.run cfgW envNoImage testW2 st0).1.query_results = [] ∧
      runQueries cfgW envNoImage testW2 testW2.queries [] st0 =
        ((some "cannot open image", []),
          (runStep cfgW envNoImage testW2 qStatic st0).2)) :=
  ⟨rfl, run_captures_failure_and_stops cfgW envNoImage testW2 st0 [] qStatic
    [qStatic] "cannot open image" [] st0 rfl rfl rfl⟩

/-- C2: on every run, at most one result per query is collected; the
results list is strictly shorter than the query list exactly when an error
was recorded; and a test with no queries yields an empty results list and
no error. -/
theorem run_query_results_length_invariant (cfg : Config) (env : Env)
    (test : UITest) (st : St) :
    (TestRunner.run cfg env test st).1.query_results.length ≤
      test.queries.length ∧
    ((TestRunner.run cfg env test st).1.query_results.length <
        test.queries.length ↔
      (TestRunner.run cfg env test st).1.error ≠ none) ∧
    (test.queries = [] →
      (TestRunner.run cfg env test st).1.query_results = [] ∧
      (TestRunner.run cfg env test st).1.error = none) := by
  rcases hQ : runQueries cfg env test test.queries [] st with ⟨⟨err, acc⟩, st₁⟩
  have hres : (TestRunner.run cfg env test st).1.query_results = acc := by
    simp only [TestRunner.run, hQ]
  have herr : (TestRunner.run cfg env test st).1.error = err := by
    simp only [TestRunner.run, hQ]
  rcases err with _ | e
  · obtain ⟨p, hp, hl⟩ := runQueries_ok_spec cfg env test test.queries [] st
      acc st₁ hQ
    have hlen : acc.length = test.queries.length := by
      rw [hp]
      simpa using hl
    refine ⟨by rw [hres, hlen], ?_, ?_⟩
    · rw [hres, herr, hlen]
      simp
    · intro hemp
      rw [hemp, runQueries_nil] at hQ
      simp only [Prod.mk.injEq] at hQ
      obtain ⟨⟨-, hacc⟩, -⟩ := hQ
      rw [hres, herr, ← hacc]
      exact ⟨rfl, rfl⟩
  · obtain ⟨p, hp, hl⟩ := runQueries_err_spec cfg env test test.queries [] st
      e acc st₁ hQ
    have hlen : acc.length < test.queries.length := by
      rw [hp]
      simpa using hl
    refine ⟨by rw [hres]; exact le_of_lt hlen, ?_, ?_⟩
    · rw [hres, herr]
      simp [hlen]
    · intro hemp
      rw [hemp, runQueries_nil] at hQ
      exact absurd (congrArg (fun z => z.1.1) hQ) (by simp)

/-- C2 witness: the invariant evaluated on a concrete two-query test whose
first query fails. -/
theorem run_query_results_length_invariant_witness :
    (TestRunner.run cfgW envNoImage testW2 st0).1.query_results.length ≤
      testW2.queries.length ∧
    ((TestRunner.run cfgW envNoImage testW2 st0).1.query_results.length <
        testW2.queries.length ↔
      (TestRunner.run cfgW envNoImage testW2 st0).1.error ≠ none) ∧
    (testW2.queries = [] →
      (TestRunner.run cfgW envNoImage testW2 st0).1.query_results = [] ∧
      (TestRunner.run cfgW envNoImage testW2 st0).1.error = none) :=
  run_query_results_length_invariant cfgW envNoImage testW2 st0

/-- C8: on every run — with or without an error — the finalizer sets
`end_time` to a time no earlier than `start_time`, and the Result Store
is entered exactly once: the trace grows by events among which
`saveCalled` occurs exactly once. -/
theorem run_finalizer_spec (cfg : Config) (env : Env) (test : UITest)
    (st : St) :
    ∃ t, (TestRunner.run cfg env test st).1.end_time = some t ∧
      (TestRunner.run cfg env test st).1.start_time ≤ t ∧
      ∃ Δ₁ Δ₂, (TestRunner.run cfg env test st).2.events =
          st.events ++ Δ₁ ++ [Event.saveCalled] ++ Δ₂ ∧
        Event.saveCalled ∉ Δ₁ ∧ Event.saveCalled ∉ Δ₂ := by
  rcases hQ : runQueries cfg env test test.queries [] st with ⟨⟨err, acc⟩, st₁⟩
  have hext : StExtends st st₁ := by
    have := runQueries_extends cfg env test test.queries [] st
    rw [hQ] at this
    exact this
  obtain ⟨htime, Δ₁, hev₁, hn₁⟩ := hext
  have hrun1 : (TestRunner.run cfg env test st).1 =
      { test := test, query_results := acc, start_time := st.time,
        end_time := some st₁.time, error := err } := by
    simp only [TestRunner.run, hQ]
  have hrun2 : (TestRunner.run cfg env test st).2 =
      TestRunner._save_results cfg env
        { test := test, query_results := acc, start_time := st.time,
          end_time := some st₁.time, error := err } st₁ := by
    simp only [TestRunner.run, hQ]
  obtain ⟨Δ₂, hev₂, hn₂, -⟩ := saveResults_events cfg env
    { test := test, query_results := acc, start_time := st.time,
      end_time := some st₁.time, error := err } st₁
  refine ⟨st₁.time, by rw [hrun1], by rw [hrun1]; exact htime, Δ₁, Δ₂, ?_, hn₁, hn₂⟩
  rw [hrun2, hev₂, hev₁]
  try simp [List.append_assoc]

/-- Helper: once setup has succeeded, `capture` is the body followed by
the two closes, with the body's outcome passed through. -/
theorem capture_of_setup_ok (cfg : Config) (env : Env) (test : UITest)
    (query : UIQuery) (st st₁ : St)
    (hsetup : ScreenshotManager._setup_browser cfg env st =
      (some (Except.ok ()), st₁)) :
    ScreenshotManager.capture cfg env test query st =
      ((captureBody cfg env test query st₁).1,
        (((captureBody cfg env test query st₁).2).emit
            Event.contextClosed).emit Event.browserClosed) := by
  rcases hB : captureBody cfg env test query st₁ with ⟨res, st₂⟩
  simp [ScreenshotManager.capture, hsetup, hB]

/-- Helper: with at least one allowed attempt and a first launch that
succeeds, setup succeeds at once, consuming one launch. -/
theorem setup_first_ok (cfg : Config) (env : Env) (st : St)
    (hA : 1 ≤ cfg.retry_attempts)
    (hL : env.launch st.launches = Except.ok ()) :
    ScreenshotManager._setup_browser cfg env st =
      (some (Except.ok ()), { st with launches := st.launches + 1 }) := by
  obtain ⟨k, hk⟩ : ∃ k, cfg.retry_attempts = k + 1 :=
    ⟨cfg.retry_attempts - 1, by omega⟩
  simp [ScreenshotManager._setup_browser, hk, setupGo, hL]

/-- C6: whenever a session has been established (`_setup_browser` returned
a live browser-context-page triple), `capture` closes the context and then
the browser on every exit path — the final trace appends the two close
events to the body's trace — and the body's outcome, screenshot list or
exception, is propagated unchanged after the release. -/
theorem capture_releases_session (cfg : Config) (env : Env) (test : UITest)
    (query : UIQuery) (st st₁ : St)
    (hsetup : ScreenshotManager._setup_browser cfg env st =
      (some (Except.ok ()), st₁)) :
    ScreenshotManager.capture cfg env test query st =
      ((captureBody cfg env test query st₁).1,
        (((captureBody cfg env test query st₁).2).emit
            Event.contextClosed).emit Event.browserClosed) :=
  capture_of_setup_ok cfg env test query st st₁ hsetup

/-- C6 witness: concrete evaluation with a successful first launch. -/
theorem capture_releases_session_witness :
    ScreenshotManager.capture cfgW envOk testW qStatic st0 =
      ((captureBody cfgW envOk testW qStatic { st0 with launches := 1 }).1,
        (((captureBody cfgW envOk testW qStatic { st0 with launches := 1 }).2).emit
            Event.contextClosed).emit Event.browserClosed) :=
  capture_releases_session cfgW envOk testW qStatic st0
    { st0 with launches := 1 } rfl

/-- C10: when `results.json` exists but cannot be read, `_save_results`
returns normally having only logged the failure: the store file is left
exactly as it was (no fallback to an empty list), nothing is written, and
the new record is lost. -/
theorem save_results_corrupt_store_noop (cfg : Config) (env : Env)
    (result : TestResult) (st : St) (m : String)
    (hS : st.store = StoreFile.corrupt m) :
    TestRunner._save_results cfg env result st =
      (st.emit Event.saveCalled).emit
        (Event.logged ("Failed to save results: " ++ m)) ∧
    (TestRunner._save_results cfg env result st).store = st.store ∧
    (TestRunner._save_results cfg env result st).events =
      st.events ++ [Event.saveCalled,
        Event.logged ("Failed to save results: " ++ m)] := by
  have h1 : TestRunner._save_results cfg env result st =
      (st.emit Event.saveCalled).emit
        (Event.logged ("Failed to save results: " ++ m)) := by
    simp [TestRunner._save_results, readStore, St.emit, hS]
  refine ⟨h1, by rw [h1]; simp [St.emit, hS], by rw [h1]; simp [St.emit]⟩

/-- C10 witness: concrete evaluation against an unreadable store. -/
theorem save_results_corrupt_store_noop_witness :
    TestRunner._save_results cfgW envOk resultW stCorrupt =
      (stCorrupt.emit Event.saveCalled).emit
        (Event.logged ("Failed to save results: " ++ "invalid json")) ∧
    (TestRunner._save_results cfgW envOk resultW stCorrupt).store =
      stCorrupt.store ∧
    (TestRunner._save_results cfgW envOk resultW stCorrupt).events =
      stCorrupt.events ++ [Event.saveCalled,
        Event.logged ("Failed to save results: " ++ "invalid json")] :=
  save_results_corrupt_store_noop cfgW envOk resultW stCorrupt "invalid json" rfl

/-- Helper: one successful save onto a readable store appends the new
record. -/
theorem save_results_valid_ok (cfg : Config) (env : Env)
    (result : TestResult) (st : St) (l : List TestRecord)
    (hS : st.store = StoreFile.valid l)
    (hD : env.dump (l ++ [result.to_dict]) = Except.ok ()) :
    (TestRunner._save_results cfg env result st).store =
      StoreFile.valid (l ++ [result.to_dict]) := by
  simp [TestRunner._save_results, readStore, St.emit, hS, hD]

/-- Helper: iterated saves onto a readable store append all records in
order, when every write succeeds. -/
theorem saveAll_valid (cfg : Config) (env : Env)
    (hD : ∀ l, env.dump l = Except.ok ()) :
    ∀ rs st l, st.store = StoreFile.valid l →
    (saveAll cfg env rs st).store =
      StoreFile.valid (l ++ rs.map TestResult.to_dict) := by
  intro rs
  induction rs with
  | nil => intro st l hS; simpa [saveAll] using hS
  | cons r rest ih =>
    intro st l hS
    have h1 : (TestRunner._save_results cfg env r st).store =
        StoreFile.valid (l ++ [r.to_dict]) :=
      save_results_valid_ok cfg env r st l hS (hD _)
    have := ih (TestRunner._save_results cfg env r st) (l ++ [r.to_dict]) h1
    simpa [saveAll, List.append_assoc] using this

/-- C7: `_save_results` reads the persisted list (a missing file reads as
the empty list), appends `result.to_dict()`, and rewrites the store, so
appending a sequence of results one after another starting from a missing
store yields exactly their records in order; and a failure of the write is
logged and swallowed — the function returns a state rather than an
exception, leaving the store as it was. -/
theorem save_results_append_spec (cfg : Config) (env : Env) :
    (∀ result st l, st.store = StoreFile.valid l →
      env.dump (l ++ [result.to_dict]) = Except.ok () →
      (TestRunner._save_results cfg env result st).store =
        StoreFile.valid (l ++ [result.to_dict])) ∧
    (∀ result st, st.store = StoreFile.missing →
      env.dump [result.to_dict] = Except.ok () →
      (TestRunner._save_results cfg env result st).store =
        StoreFile.valid [result.to_dict]) ∧
    (∀ r rs st, st.store = StoreFile.missing →
      (∀ l, env.dump l = Except.ok ()) →
      (saveAll cfg env (r :: rs) st).store =
        StoreFile.valid ((r :: rs).map TestResult.to_dict)) ∧
    (∀ result st l e, st.store = StoreFile.valid l →
      env.dump (l ++ [result.to_dict]) = Except.error e →
      TestRunner._save_results cfg env result st =
        (st.emit Event.saveCalled).emit
          (Event.logged ("Failed to save results: " ++ e))) := by
  refine ⟨save_results_valid_ok cfg env, ?_, ?_, ?_⟩
  · intro result st hS hD
    simp [TestRunner._save_results, readStore, St.emit, hS, hD]
  · intro r rs st hS hD
    have h1 : (TestRunner._save_results cfg env r st).store =
        StoreFile.valid [r.to_dict] := by
      have := hD [r.to_dict]
      simp [TestRunner._save_results, readStore, St.emit, hS, this]
    have := saveAll_valid cfg env hD rs
      (TestRunner._save_results cfg env r st) [r.to_dict] h1
    simpa [saveAll] using this
  · intro result st l e hS hD
    simp [TestRunner._save_results, readStore, St.emit, hS, hD]

/-- C7 witness: two successive saves starting from a missing store leave
exactly the two records, in order. -/
theorem save_results_append_spec_witness :
    (saveAll cfgW envOk (resultW :: [resultW2]) st0).store =
      StoreFile.valid ((resultW :: [resultW2]).map TestResult.to_dict) :=
  (save_results_append_spec cfgW envOk).2.2.1 resultW [resultW2] st0 rfl
    (fun _ => rfl)

/-- Helper: `range(0, d*5, d)` has exactly five elements for any non-zero
step. -/
theorem pyRangeLen_five (d : Int) (hd : d ≠ 0) : pyRangeLen 0 (d * 5) d = 5 := by
  rcases lt_or_gt_of_ne hd with hneg | hpos
  · obtain ⟨m, hm, hm1⟩ : ∃ m : Nat, -d = (m : Int) ∧ 1 ≤ m := by
      refine ⟨(-d).toNat, ?_, ?_⟩ <;> omega
    have h1 : ¬ (0 : Int) < d := by omega
    have h2 : d * 5 < 0 := by omega
    have h3 : (0 - d * 5 - 1).toNat = 5 * m - 1 := by omega
    have h4 : (-d).toNat = m := by omega
    simp only [pyRangeLen, if_neg h1, if_pos hneg, if_pos h2, h3, h4]
    have h5 : 5 * m - 1 = (m - 1) + m * 4 := by omega
    rw [h5, Nat.add_mul_div_left _ _ (by omega : 0 < m),
      Nat.div_eq_of_lt (by omega : m - 1 < m)]
  · obtain ⟨m, hm, hm1⟩ : ∃ m : Nat, d = (m : Int) ∧ 1 ≤ m := by
      refine ⟨d.toNat, ?_, ?_⟩ <;> omega
    have h2 : (0 : Int) < d * 5 := by omega
    have h3 : (d * 5 - 0 - 1).toNat = 5 * m - 1 := by omega
    have h4 : d.toNat = m := by omega
    simp only [pyRangeLen, if_pos hpos, if_pos h2, h3, h4]
    have h5 : 5 * m - 1 = (m - 1) + m * 4 := by omega
    rw [h5, Nat.add_mul_div_left _ _ (by omega : 0 < m),
      Nat.div_eq_of_lt (by omega : m - 1 < m)]

/-- Helper: the dynamic loop iterates over the five indices
`0, d, 2d, 3d, 4d`. -/
theorem pyRange_five (d : Int) (hd : d ≠ 0) :
    pyRange 0 (d * 5) d = [0, d, d * 2, d * 3, d * 4] := by
  unfold pyRange
  rw [pyRangeLen_five d hd]
  show List.map _ [0, 1, 2, 3, 4] = _
  simp [List.map]

/-- Helper: the screenshot path of an indexed (dynamic-mode) shot, written
out as the flat concatenation of its parts. -/
theorem get_screenshot_path_some (cfg : Config) (test : UITest) (i : Int)
    (st : St) :
    ScreenshotManager._get_screenshot_path cfg test (some i) st =
      cfg.screenshot_dir ++ "/" ++ test.name ++ "_" ++ timestampStr st.time ++
        "_" ++ toString i ++ ".png" := by
  simp [ScreenshotManager._get_screenshot_path, String.append_assoc]

/-- Helper: the screenshot path of a single-shot capture, written out as
the flat concatenation of its parts. -/
theorem get_screenshot_path_none (cfg : Config) (test : UITest) (st : St) :
    ScreenshotManager._get_screenshot_path cfg test none st =
      cfg.screenshot_dir ++ "/" ++ test.name ++ "_" ++ timestampStr st.time ++
        ".png" := by
  simp [ScreenshotManager._get_screenshot_path, String.append_assoc]

/-- Helper: two states agree once all four fields do. -/
theorem St.ext4 {a b : St} (h1 : a.time = b.time)
    (h2 : a.launches = b.launches) (h3 : a.events = b.events)
    (h4 : a.store = b.store) : a = b := by
  cases a
  cases b
  simp only at h1 h2 h3 h4
  subst h1
  subst h2
  subst h3
  subst h4
  rfl

/-- Helper: when every screenshot succeeds, the dynamic loop captures one
shot per index, each followed by the interval sleep, and each path carries
an index suffix drawn from the index list. -/
theorem captureLoop_all_ok (cfg : Config) (env : Env) (test : UITest)
    (d : Int) (hShot : ∀ p, env.screenshot p = Except.ok ()) :
    ∀ idxs acc st, ∃ ps,
      captureLoop cfg env test d idxs acc st =
        (Except.ok (acc ++ ps),
          { st with time := st.time + idxs.length * d.toNat,
                    events := st.events ++ dynTrail d ps }) ∧
      ps.length = idxs.length ∧
      ∀ p ∈ ps, ∃ t i, i ∈ idxs ∧
        p = cfg.screenshot_dir ++ "/" ++ test.name ++ "_" ++ timestampStr t ++
          "_" ++ toString i ++ ".png" := by
  intro idxs
  induction idxs with
  | nil =>
    intro acc st
    refine ⟨[], ?_, rfl, by simp⟩
    simp [captureLoop, dynTrail]
  | cons i rest ih =>
    intro acc st
    set path := ScreenshotManager._get_screenshot_path cfg test (some i) st
      with hpath
    set st1 := (st.emit (Event.shot path)).sleep d with hst1
    obtain ⟨ps', hloop, hlen, hshape⟩ := ih (acc ++ [path]) st1
    refine ⟨path :: ps', ?_, by simp [hlen], ?_⟩
    · have hstep : captureLoop cfg env test d (i :: rest) acc st =
          captureLoop cfg env test d rest (acc ++ [path]) st1 := by
        simp only [captureLoop, ← hpath, hShot path]
      rw [hstep, hloop]
      have hst1ev : st1.events = st.events ++ [Event.shot path, Event.sleepMs d] := by
        simp [hst1, St.emit, St.sleep]
      have hst1t : st1.time = st.time + d.toNat := by
        simp [hst1, St.emit, St.sleep]
      have hst1l : st1.launches = st.launches := by
        simp [hst1, St.emit, St.sleep]
      have hst1s : st1.store = st.store := by
        simp [hst1, St.emit, St.sleep]
      refine Prod.ext ?_ ?_
      · simp
      · show ({ st1 with time := st1.time + rest.length * d.toNat, events := st1.events ++ dynTrail d ps' } : St) = { st with time := st.time + (rest.length + 1) * d.toNat, events := st.events ++ dynTrail d (path :: ps') }
        refine St.ext4 ?_ ?_ ?_ ?_
        · show st1.time + rest.length * d.toNat =
            st.time + (rest.length + 1) * d.toNat
          rw [hst1t]
          ring
        · show st1.launches = st.launches
          exact hst1l
        · show st1.events ++ dynTrail d ps' =
            st.events ++ dynTrail d (path :: ps')
          rw [hst1ev, dynTrail, List.append_assoc]
          rfl
        · show st1.store = st.store
          exact hst1s
    · intro p hp
      rcases List.mem_cons.mp hp with hhead | htail
      · exact ⟨st.time, i, List.mem_cons_self i rest,
          by rw [hhead, hpath, get_screenshot_path_some]⟩
      · obtain ⟨t, j, hj, hpj⟩ := hshape p htail
        exact ⟨t, j, List.mem_cons_of_mem i hj, hpj⟩

/-- Helper: a successful single shot returns exactly the one freshly named
path and records it. -/
theorem singleShotCapture_ok (cfg : Config) (env : Env) (test : UITest)
    (st : St) (hShot : ∀ p, env.screenshot p = Except.ok ()) :
    singleShotCapture cfg env test st =
      (Except.ok [ScreenshotManager._get_screenshot_path cfg test none st],
        st.emit (Event.shot
          (ScreenshotManager._get_screenshot_path cfg test none st))) := by
  simp [singleShotCapture, hShot]

/-- Helper: every path in a successful dynamic-loop result either came in
with the accumulator or carries an index suffix. -/
theorem captureLoop_paths (cfg : Config) (env : Env) (test : UITest)
    (d : Int) :
    ∀ idxs acc st ps st',
    captureLoop cfg env test d idxs acc st = (Except.ok ps, st') →
    ∀ p ∈ ps, p ∈ acc ∨ ∃ (t : Nat) (i : Int), p = cfg.screenshot_dir ++
      "/" ++ test.name ++ "_" ++ timestampStr t ++ "_" ++ toString i ++
      ".png" := by
  intro idxs
  induction idxs with
  | nil =>
    intro acc st ps st' hloop p hp
    simp only [captureLoop, Prod.mk.injEq] at hloop
    obtain ⟨h1, -⟩ := hloop
    obtain rfl : acc = ps := Except.ok.inj h1
    exact Or.inl hp
  | cons i rest ih =>
    intro acc st ps st' hloop p hp
    rcases hshot : env.screenshot
        (ScreenshotManager._get_screenshot_path cfg test (some i) st) with e | u
    · simp only [captureLoop, hshot] at hloop
      exact absurd (congrArg Prod.fst hloop) (by simp)
    · simp only [captureLoop, hshot] at hloop
      rcases ih _ _ _ _ hloop p hp with hmem | hshape
      · rcases List.mem_append.mp hmem with hacc | hpath
        · exact Or.inl hacc
        · refine Or.inr ⟨st.time, i, ?_⟩
          have := List.mem_singleton.mp hpath
          rw [this, get_screenshot_path_some]
      · exact Or.inr hshape

/-- C3 counterexample: `screenshot_interval_ms = 0` is *present*, yet
`capture` is in single-shot mode (the source guards with Python truthiness,
`if query.screenshot_interval_ms:`) and returns one screenshot, not five. -/
theorem capture_zero_interval_single_shot :
    qZero.screenshot_interval_ms = some 0 ∧
    (ScreenshotManager.capture cfgW envOk testW qZero st0).1 =
      Except.ok ["shots/t_0.png"] ∧
    Except.map List.length
      (ScreenshotManager.capture cfgW envOk testW qZero st0).1 ≠
      Except.ok 5 := by
  refine ⟨rfl, rfl, ?_⟩
  intro h
  have : (1 : Nat) = 5 := Except.ok.inj h
  simp at this

/-- C3 (amended): with a healthy session and navigation, `capture` in
dynamic mode — interval *present and non-zero* — returns exactly five
screenshots, each followed in the trace by a sleep of the interval, while
an absent *or zero* interval yields exactly one screenshot. -/
theorem capture_screenshot_counts (cfg : Config) (env : Env) (test : UITest)
    (query : UIQuery) (st : St) (d : Int)
    (hA : 1 ≤ cfg.retry_attempts)
    (hL : env.launch st.launches = Except.ok ())
    (hG : env.goto test.url = Except.ok ())
    (hShot : ∀ p, env.screenshot p = Except.ok ()) :
    (query.screenshot_interval_ms = some d → d ≠ 0 →
      ∃ ps, (ScreenshotManager.capture cfg env test query st).1 =
          Except.ok ps ∧ ps.length = 5 ∧
        (ScreenshotManager.capture cfg env test query st).2.events =
          st.events ++ dynTrail d ps ++
            [Event.contextClosed, Event.browserClosed]) ∧
    ((query.screenshot_interval_ms = none ∨
        query.screenshot_interval_ms = some 0) →
      ∃ p, (ScreenshotManager.capture cfg env test query st).1 =
          Except.ok [p] ∧
        (ScreenshotManager.capture cfg env test query st).2.events =
          st.events ++ [Event.shot p, Event.contextClosed,
            Event.browserClosed]) := by
  have hsetup := setup_first_ok cfg env st hA hL
  have hcap := capture_of_setup_ok cfg env test query st
    { st with launches := st.launches + 1 } hsetup
  constructor
  · intro hqd hd
    have hbody : captureBody cfg env test query
        { st with launches := st.launches + 1 } =
        captureLoop cfg env test d (pyRange 0 (d * 5) d) []
          { st with launches := st.launches + 1 } := by
      simp only [captureBody, hG, hqd]
      rw [if_neg hd]
    obtain ⟨ps, hloop, hlen, -⟩ := captureLoop_all_ok cfg env test d hShot
      (pyRange 0 (d * 5) d) [] { st with launches := st.launches + 1 }
    refine ⟨ps, ?_, ?_, ?_⟩
    · simp only [hcap, hbody, hloop, List.nil_append]
    · rw [hlen, pyRange_five d hd]
      rfl
    · simp only [hcap, hbody, hloop, St.emit]
      simp [List.append_assoc]
  · intro hq0
    have hbody : captureBody cfg env test query
        { st with launches := st.launches + 1 } =
        singleShotCapture cfg env test
          { st with launches := st.launches + 1 } := by
      rcases hq0 with hn | h0
      · simp only [captureBody, hG, hn]
      · simp only [captureBody, hG, h0]
        simp
    refine ⟨ScreenshotManager._get_screenshot_path cfg test none
      { st with launches := st.launches + 1 }, ?_, ?_⟩
    · simp only [hcap, hbody, singleShotCapture_ok cfg env test _ hShot]
    · simp only [hcap, hbody, singleShotCapture_ok cfg env test _ hShot,
        St.emit]
      simp [List.append_assoc]

/-- C3 (amended) witness: concrete dynamic capture at a 100 ms interval
and concrete single-shot capture. -/
theorem capture_screenshot_counts_witness :
    (qDyn.screenshot_interval_ms = some 100 → (100 : Int) ≠ 0 →
      ∃ ps, (ScreenshotManager.capture cfgW envOk testW qDyn st0).1 =
          Except.ok ps ∧ ps.length = 5 ∧
        (ScreenshotManager.capture cfgW envOk testW qDyn st0).2.events =
          st0.events ++ dynTrail 100 ps ++
            [Event.contextClosed, Event.browserClosed]) ∧
    ((qDyn.screenshot_interval_ms = none ∨
        qDyn.screenshot_interval_ms = some 0) →
      ∃ p, (ScreenshotManager.capture cfgW envOk testW qDyn st0).1 =
          Except.ok [p] ∧
        (ScreenshotManager.capture cfgW envOk testW qDyn st0).2.events =
          st0.events ++ [Event.shot p, Event.contextClosed,
            Event.browserClosed]) :=
  capture_screenshot_counts cfgW envOk testW qDyn st0 100 (by decide) rfl rfl
    (fun _ => rfl)

/-- C9: every screenshot list that `capture` returns successfully consists
of paths under the configured output directory named
`testName_timestamp.png` in single-shot mode (interval absent or zero) and
`testName_timestamp_index.png` in dynamic mode — the index suffix appears
exactly in the dynamic branch. -/
theorem screenshot_path_format (cfg : Config) (env : Env) (test : UITest)
    (query : UIQuery) (st : St) (ps : List String)
    (h : (ScreenshotManager.capture cfg env test query st).1 = Except.ok ps) :
    ((query.screenshot_interval_ms = none ∨
        query.screenshot_interval_ms = some 0) →
      ∃ t, ps = [cfg.screenshot_dir ++ "/" ++ test.name ++ "_" ++
        timestampStr t ++ ".png"]) ∧
    (∀ d, query.screenshot_interval_ms = some d → d ≠ 0 →
      ∀ p ∈ ps, ∃ (t : Nat) (i : Int), p = cfg.screenshot_dir ++ "/" ++
        test.name ++ "_" ++ timestampStr t ++ "_" ++ toString i ++
        ".png") := by
  rcases hS : ScreenshotManager._setup_browser cfg env st with ⟨o, st₁⟩
  rcases o with _ | e
  · rw [ScreenshotManager.capture] at h
    rw [hS] at h
    exact absurd h (by simp)
  · rcases e with e | u
    · rw [ScreenshotManager.capture] at h
      rw [hS] at h
      exact absurd h (by simp)
    · have hcap := capture_of_setup_ok cfg env test query st st₁ hS
      rw [hcap] at h
      rcases hG : env.goto test.url with e | u
      · rw [captureBody] at h
        rw [hG] at h
        exact absurd h (by simp)
      · rcases hq : query.screenshot_interval_ms with _ | d
        · have hbody : captureBody cfg env test query st₁ =
              singleShotCapture cfg env test st₁ := by
            simp only [captureBody, hG, hq]
          rw [hbody] at h
          rcases hshot : env.screenshot
              (ScreenshotManager._get_screenshot_path cfg test none st₁)
            with e | u
          · rw [singleShotCapture] at h
            rw [hshot] at h
            exact absurd h (by simp)
          · rw [singleShotCapture] at h
            rw [hshot] at h
            simp only [Prod.mk.injEq] at h ⊢
            constructor
            · intro hmode
              refine ⟨st₁.time, ?_⟩
              rw [← Except.ok.inj h, get_screenshot_path_none]
            · intro d hd
              exact absurd hd (by simp)
        · by_cases hd0 : d = 0
          · have hbody : captureBody cfg env test query st₁ =
                singleShotCapture cfg env test st₁ := by
              simp only [captureBody, hG, hq]
              simp [hd0]
            rw [hbody] at h
            rcases hshot : env.screenshot
                (ScreenshotManager._get_screenshot_path cfg test none st₁)
              with e | u
            · rw [singleShotCapture] at h
              rw [hshot] at h
              exact absurd h (by simp)
            · rw [singleShotCapture] at h
              rw [hshot] at h
              constructor
              · intro hmode
                refine ⟨st₁.time, ?_⟩
                rw [← Except.ok.inj h, get_screenshot_path_none]
              · intro d' hd' hne
                have hdd : d = d' := Option.some.inj hd'
                rw [← hdd, hd0] at hne
                exact absurd rfl hne
          · have hbody : captureBody cfg env test query st₁ =
                captureLoop cfg env test d (pyRange 0 (d * 5) d) [] st₁ := by
              simp only [captureBody, hG, hq]
              rw [if_neg hd0]
            rw [hbody] at h
            rcases hloop : captureLoop cfg env test d (pyRange 0 (d * 5) d)
                [] st₁ with ⟨res, st₂⟩
            have hres : res = Except.ok ps := by
              have := congrArg Prod.fst hloop
              rw [h] at this
              exact this.symm
            constructor
            · intro hmode
              rcases hmode with hn | h0
              · exact absurd hn (by simp)
              · exact absurd (Option.some.inj h0) hd0
            · intro d' hd' hne p hp
              subst hres
              rcases captureLoop_paths cfg env test d _ _ _ _ _ hloop p hp
                with hacc | hshape
              · exact absurd hacc (List.not_mem_nil p)
              · exact hshape

/-- C9 witness: a concrete successful single-shot capture has the
unsuffixed name, and the dynamic clause holds vacuously for it. -/
theorem screenshot_path_format_witness :
    ((qStatic.screenshot_interval_ms = none ∨
        qStatic.screenshot_interval_ms = some 0) →
      ∃ t, ["shots/t_0.png"] = [cfgW.screenshot_dir ++ "/" ++ testW.name ++
        "_" ++ timestampStr t ++ ".png"]) ∧
    (∀ d, qStatic.screenshot_interval_ms = some d → d ≠ 0 →
      ∀ p ∈ ["shots/t_0.png"], ∃ (t : Nat) (i : Int), p =
        cfgW.screenshot_dir ++ "/" ++ testW.name ++ "_" ++ timestampStr t ++
        "_" ++ toString i ++ ".png") :=
  screenshot_path_format cfgW envOk testW qStatic st0 ["shots/t_0.png"] rfl

/-- Helper: the analysis loop is the empty-accumulator loop with the
accumulator prepended. -/
theorem analyzeLoop_acc (env : Env) (question : String) :
    ∀ ps acc, analyzeLoop env question ps acc =
      (analyzeLoop env question ps []).map (fun l => acc ++ l) := by
  intro ps
  induction ps with
  | nil => intro acc; simp [analyzeLoop, Except.map]
  | cons p rest ih =>
    intro acc
    rcases hstep : analyzeStep env question p with e | a
    · simp [analyzeLoop, hstep, Except.map]
    · simp only [analyzeLoop, hstep, List.nil_append]
      rw [ih (acc ++ [a]), ih [a]]
      rcases analyzeLoop env question rest [] with e | l
      · simp [Except.map]
      · simp [Except.map]

/-- Helper: when every per-screenshot step succeeds, the loop collects one
answer per screenshot and the last answer is the answer of the last
screenshot. -/
theorem analyzeLoop_all_ok (env : Env) (question : String) :
    ∀ ps (hne : ps ≠ []),
    (∀ p ∈ ps, ∃ a, analyzeStep env question p = Except.ok a) →
    ∃ l b, analyzeLoop env question ps [] = Except.ok l ∧ l ≠ [] ∧
      l.getLast? = some b ∧
      analyzeStep env question (ps.getLast hne) = Except.ok b := by
  intro ps
  induction ps with
  | nil => intro hne; exact absurd rfl hne
  | cons p rest ih =>
    intro hne hok
    obtain ⟨a, ha⟩ := hok p (List.mem_cons_self p rest)
    by_cases hrne : rest = []
    · subst hrne
      refine ⟨[a], a, ?_, by simp, by simp, ?_⟩
      · simp [analyzeLoop, ha]
      · simpa [List.getLast] using ha
    · obtain ⟨l, b, hl, hlne, hlast, hstep⟩ :=
        ih hrne (fun p' hp' => hok p' (List.mem_cons_of_mem p hp'))
      refine ⟨a :: l, b, ?_, by simp, ?_, ?_⟩
      · have h1 : analyzeLoop env question (p :: rest) [] =
            analyzeLoop env question rest [a] := by
          simp only [analyzeLoop, ha, List.nil_append]
        rw [h1, analyzeLoop_acc env question rest [a], hl]
        simp [Except.map]
      · rcases l with _ | ⟨x, l'⟩
        · exact absurd rfl hlne
        · rw [List.getLast?_cons_cons]
          exact hlast
      · have hgl : (p :: rest).getLast hne = rest.getLast hrne :=
          List.getLast_cons hrne
        rw [hgl]
        exact hstep

/-- Helper: the first failing step aborts the whole loop with its error. -/
theorem analyzeLoop_first_fail (env : Env) (question : String) :
    ∀ ps₁ p ps₂ e acc,
    (∀ p' ∈ ps₁, ∃ a, analyzeStep env question p' = Except.ok a) →
    analyzeStep env question p = Except.error e →
    analyzeLoop env question (ps₁ ++ p :: ps₂) acc = Except.error e := by
  intro ps₁
  induction ps₁ with
  | nil =>
    intro p ps₂ e acc hok hfail
    simp [analyzeLoop, hfail]
  | cons q rest ih =>
    intro p ps₂ e acc hok hfail
    obtain ⟨a, ha⟩ := hok q (List.mem_cons_self q rest)
    simp only [List.cons_append, analyzeLoop, ha]
    exact ih p ps₂ e (acc ++ [a])
      (fun p' hp' => hok p' (List.mem_cons_of_mem q hp')) hfail

/-- C4 counterexample: the model's own answer can be the empty string, so
`analyze` returns `""` for a non-empty screenshot list — the claim's
"empty string only when the screenshot list is empty" fails. -/
theorem analyze_empty_answer_nonempty_list :
    VisionAnalyzer.analyze envBlank ["shots/t_0.png"] qStatic =
      Except.ok "" ∧
    (["shots/t_0.png"] : List String) ≠ [] := by
  exact ⟨rfl, by simp⟩

/-- C4 (amended): an empty screenshot list yields the empty string; the
first failing encode-or-query step fails the whole analysis immediately
with that error and no partial result; and when every step succeeds the
returned answer is the model's answer for the *last* screenshot — which
may itself be the empty string, so emptiness of the result does not imply
emptiness of the input. -/
theorem analyze_last_answer_spec (env : Env) (screenshots : List String)
    (query : UIQuery) :
    (screenshots = [] →
      VisionAnalyzer.analyze env screenshots query = Except.ok "") ∧
    (∀ ps₁ p ps₂ e, screenshots = ps₁ ++ p :: ps₂ →
      (∀ p' ∈ ps₁, ∃ a, analyzeStep env query.question p' = Except.ok a) →
      analyzeStep env query.question p = Except.error e →
      VisionAnalyzer.analyze env screenshots query = Except.error e) ∧
    (∀ hne : screenshots ≠ [],
      (∀ p ∈ screenshots, ∃ a,
        analyzeStep env query.question p = Except.ok a) →
      ∃ a, analyzeStep env query.question (screenshots.getLast hne) =
          Except.ok a ∧
        VisionAnalyzer.analyze env screenshots query = Except.ok a) := by
  refine ⟨?_, ?_, ?_⟩
  · intro hemp
    rw [hemp]
    rfl
  · intro ps₁ p ps₂ e hsplit hok hfail
    rw [hsplit]
    rw [VisionAnalyzer.analyze,
      analyzeLoop_first_fail env query.question ps₁ p ps₂ e [] hok hfail]
  · intro hne hok
    obtain ⟨l, b, hl, hlne, hlast, hstep⟩ :=
      analyzeLoop_all_ok env query.question screenshots hne hok
    refine ⟨b, hstep, ?_⟩
    rw [VisionAnalyzer.analyze, hl]
    simp [hlast]

/-- C4 (amended) witness: a concrete one-screenshot analysis returns the
model's answer for that (last) screenshot. -/
theorem analyze_last_answer_spec_witness :
    (["shots/t_0.png"] = ([] : List String) →
      VisionAnalyzer.analyze envOk ["shots/t_0.png"] qStatic =
        Except.ok "") ∧
    (∀ ps₁ p ps₂ e, ["shots/t_0.png"] = ps₁ ++ p :: ps₂ →
      (∀ p' ∈ ps₁, ∃ a, analyzeStep envOk qStatic.question p' =
        Except.ok a) →
      analyzeStep envOk qStatic.question p = Except.error e →
      VisionAnalyzer.analyze envOk ["shots/t_0.png"] qStatic =
        Except.error e) ∧
    (∀ hne : ["shots/t_0.png"] ≠ ([] : List String),
      (∀ p ∈ ["shots/t_0.png"], ∃ a,
        analyzeStep envOk qStatic.question p = Except.ok a) →
      ∃ a, analyzeStep envOk qStatic.question
          ((["shots/t_0.png"] : List String).getLast hne) = Except.ok a ∧
        VisionAnalyzer.analyze envOk ["shots/t_0.png"] qStatic =
          Except.ok a) :=
  analyze_last_answer_spec envOk ["shots/t_0.png"] qStatic

/-- Helper: when the first `rem` launch attempts all fail, the setup loop
retries with the fixed delay after every non-final failure and finally
re-raises the last failure. -/
theorem setupGo_all_fail (cfg : Config) (env : Env) :
    ∀ rem attempt st (m : Nat → String), 1 ≤ rem →
    (∀ j, j < rem → env.launch (st.launches + j) = Except.error (m j)) →
    setupGo cfg env attempt rem st =
      (some (Except.error (m (rem - 1))),
        { st with launches := st.launches + rem,
                  time := st.time + (rem - 1) * cfg.retry_delay,
                  events := st.events ++ retryTrail cfg m attempt (rem - 1) }) := by
  intro rem
  induction rem with
  | zero => intro attempt st m h1; omega
  | succ k ih =>
    intro attempt st m h1 hfail
    have h0 : env.launch st.launches = Except.error (m 0) := by
      have := hfail 0 (by omega)
      simpa using this
    rcases k with _ | k'
    · simp only [setupGo, h0]
      refine Prod.ext rfl ?_
      show ({ st with launches := st.launches + 1 } : St) =
        { st with launches := st.launches + 1, time := st.time + (1 - 1) * cfg.retry_delay, events := st.events ++ retryTrail cfg m attempt (1 - 1) }
      refine St.ext4 ?_ rfl ?_ rfl
      · simp
      · simp [retryTrail]
    · have hst2 : (({ st with launches := st.launches + 1 }.emit
          (Event.logged (warnMsg (attempt + 1) (m 0)))).sleep
            (Int.ofNat cfg.retry_delay)) =
          { st with launches := st.launches + 1, time := st.time + cfg.retry_delay, events := st.events ++ [Event.logged (warnMsg (attempt + 1) (m 0)), Event.sleepMs (Int.ofNat cfg.retry_delay)] } := by
        refine St.ext4 ?_ ?_ ?_ ?_ <;> simp [St.emit, St.sleep]
      have hstep : setupGo cfg env attempt (k' + 1 + 1) st =
          setupGo cfg env (attempt + 1) (k' + 1)
            { st with launches := st.launches + 1, time := st.time + cfg.retry_delay, events := st.events ++ [Event.logged (warnMsg (attempt + 1) (m 0)), Event.sleepMs (Int.ofNat cfg.retry_delay)] } := by
        simp only [setupGo, h0]
        rw [hst2]
      rw [hstep]
      have hrec := ih (attempt + 1)
        { st with launches := st.launches + 1, time := st.time + cfg.retry_delay, events := st.events ++ [Event.logged (warnMsg (attempt + 1) (m 0)), Event.sleepMs (Int.ofNat cfg.retry_delay)] }
        (fun j => m (j + 1)) (by omega) ?_
      · rw [hrec]
        refine Prod.ext rfl ?_
        refine St.ext4 ?_ ?_ ?_ ?_
        · show st.time + cfg.retry_delay + k' * cfg.retry_delay =
            st.time + (k' + 1) * cfg.retry_delay
          ring
        · show st.launches + 1 + (k' + 1) = st.launches + (k' + 1 + 1)
          omega
        · show st.events ++ [Event.logged (warnMsg (attempt + 1) (m 0)),
              Event.sleepMs (Int.ofNat cfg.retry_delay)] ++
              retryTrail cfg (fun j => m (j + 1)) (attempt + 1) k' =
            st.events ++ retryTrail cfg m attempt (k' + 1)
          rw [List.append_assoc]
          rfl
        · rfl
      · intro j hj
        show env.launch (st.launches + 1 + j) = Except.error (m (j + 1))
        have harg : st.launches + 1 + j = st.launches + (j + 1) := by omega
        rw [harg]
        exact hfail (j + 1) (by omega)

/-- Helper: when the first `k` launch attempts fail and attempt `k`
succeeds (with `k` within the allowed attempts), setup succeeds, leaving
only the `k` warn-and-delay pairs behind. -/
theorem setupGo_prefix_ok (cfg : Config) (env : Env) :
    ∀ k rem attempt st (m : Nat → String), k < rem →
    (∀ j, j < k → env.launch (st.launches + j) = Except.error (m j)) →
    env.launch (st.launches + k) = Except.ok () →
    setupGo cfg env attempt rem st =
      (some (Except.ok ()),
        { st with launches := st.launches + k + 1, time := st.time + k * cfg.retry_delay, events := st.events ++ retryTrail cfg m attempt k }) := by
  intro k
  induction k with
  | zero =>
    intro rem attempt st m hk hfail hok
    obtain ⟨r, hr⟩ : ∃ r, rem = r + 1 := ⟨rem - 1, by omega⟩
    subst hr
    have h0 : env.launch st.launches = Except.ok () := by simpa using hok
    simp only [setupGo, h0]
    refine Prod.ext rfl ?_
    refine St.ext4 ?_ ?_ ?_ ?_
    · show st.time = st.time + 0 * cfg.retry_delay
      simp
    · show st.launches + 1 = st.launches + 0 + 1
      omega
    · show st.events = st.events ++ retryTrail cfg m attempt 0
      simp [retryTrail]
    · rfl
  | succ kk ihk =>
    intro rem attempt st m hk hfail hok
    obtain ⟨r, hr⟩ : ∃ r, rem = r + 1 := ⟨rem - 1, by omega⟩
    subst hr
    have h0 : env.launch st.launches = Except.error (m 0) := by
      have := hfail 0 (by omega)
      simpa using this
    obtain ⟨r2, hr2⟩ : ∃ r2, r = r2 + 1 := ⟨r - 1, by omega⟩
    subst hr2
    have hst2 : (({ st with launches := st.launches + 1 }.emit
        (Event.logged (warnMsg (attempt + 1) (m 0)))).sleep
          (Int.ofNat cfg.retry_delay)) =
        { st with launches := st.launches + 1, time := st.time + cfg.retry_delay, events := st.events ++ [Event.logged (warnMsg (attempt + 1) (m 0)), Event.sleepMs (Int.ofNat cfg.retry_delay)] } := by
      refine St.ext4 ?_ ?_ ?_ ?_ <;> simp [St.emit, St.sleep]
    have hstep : setupGo cfg env attempt (r2 + 1 + 1) st =
        setupGo cfg env (attempt + 1) (r2 + 1)
          { st with launches := st.launches + 1, time := st.time + cfg.retry_delay, events := st.events ++ [Event.logged (warnMsg (attempt + 1) (m 0)), Event.sleepMs (Int.ofNat cfg.retry_delay)] } := by
      simp only [setupGo, h0]
      rw [hst2]
    rw [hstep]
    have hrec := ihk (r2 + 1) (attempt + 1)
      { st with launches := st.launches + 1, time := st.time + cfg.retry_delay, events := st.events ++ [Event.logged (warnMsg (attempt + 1) (m 0)), Event.sleepMs (Int.ofNat cfg.retry_delay)] }
      (fun j => m (j + 1)) (by omega) ?_ ?_
    · rw [hrec]
      refine Prod.ext rfl ?_
      refine St.ext4 ?_ ?_ ?_ ?_
      · show st.time + cfg.retry_delay + kk * cfg.retry_delay =
          st.time + (kk + 1) * cfg.retry_delay
        ring
      · show st.launches + 1 + kk + 1 = st.launches + (kk + 1) + 1
        omega
      · show st.events ++ [Event.logged (warnMsg (attempt + 1) (m 0)),
            Event.sleepMs (Int.ofNat cfg.retry_delay)] ++
            retryTrail cfg (fun j => m (j + 1)) (attempt + 1) kk =
          st.events ++ retryTrail cfg m attempt (kk + 1)
        rw [List.append_assoc]
        rfl
      · rfl
    · intro j hj
      show env.launch (st.launches + 1 + j) = Except.error (m (j + 1))
      have harg : st.launches + 1 + j = st.launches + (j + 1) := by omega
      rw [harg]
      exact hfail (j + 1) (by omega)
    · show env.launch (st.launches + 1 + kk) = Except.ok ()
      have harg : st.launches + 1 + kk = st.launches + (kk + 1) := by omega
      rw [harg]
      exact hok

/-- C5: session setup retries with the fixed `retry_delay` between
attempts (the trace shows one warn-log and one sleep of `retry_delay` per
non-final failure).  If some attempt within the budget succeeds, setup
returns a live session — the earlier failures are only logged, never
surfaced — and `capture` proceeds into its body from the post-setup state.
If all `retry_attempts` attempts fail, setup re-raises the last underlying
error, and `run` then returns a `TestResult` whose `error` is that final
failure's message with `query_results = []`. -/
theorem setup_retry_spec (cfg : Config) (env : Env) (st : St)
    (m : Nat → String) (test : UITest) (q : UIQuery)
    (rest : List UIQuery) :
    (∀ k, k < cfg.retry_attempts →
      (∀ j, j < k → env.launch (st.launches + j) = Except.error (m j)) →
      env.launch (st.launches + k) = Except.ok () →
      ScreenshotManager._setup_browser cfg env st =
        (some (Except.ok ()),
          { st with launches := st.launches + k + 1, time := st.time + k * cfg.retry_delay, events := st.events ++ retryTrail cfg m 0 k }) ∧
      ∀ query, ScreenshotManager.capture cfg env test query st =
        ((captureBody cfg env test query { st with launches := st.launches + k + 1, time := st.time + k * cfg.retry_delay, events := st.events ++ retryTrail cfg m 0 k }).1,
          (((captureBody cfg env test query { st with launches := st.launches + k + 1, time := st.time + k * cfg.retry_delay, events := st.events ++ retryTrail cfg m 0 k }).2).emit Event.contextClosed).emit Event.browserClosed)) ∧
    (1 ≤ cfg.retry_attempts →
      (∀ j, j < cfg.retry_attempts →
        env.launch (st.launches + j) = Except.error (m j)) →
      ScreenshotManager._setup_browser cfg env st =
        (some (Except.error (m (cfg.retry_attempts - 1))),
          { st with launches := st.launches + cfg.retry_attempts, time := st.time + (cfg.retry_attempts - 1) * cfg.retry_delay, events := st.events ++ retryTrail cfg m 0 (cfg.retry_attempts - 1) })) ∧
    (1 ≤ cfg.retry_attempts → test.queries = q :: rest →
      (∀ j, j < cfg.retry_attempts →
        env.launch (st.launches + j) = Except.error (m j)) →
      (TestRunner.run cfg env test st).1.error =
        some (m (cfg.retry_attempts - 1)) ∧
      (TestRunner.run cfg env test st).1.query_results = []) := by
  refine ⟨?_, ?_, ?_⟩
  · intro k hk hfail hok
    have hsb : ScreenshotManager._setup_browser cfg env st =
        (some (Except.ok ()),
          { st with launches := st.launches + k + 1, time := st.time + k * cfg.retry_delay, events := st.events ++ retryTrail cfg m 0 k }) := by
      rw [ScreenshotManager._setup_browser]
      exact setupGo_prefix_ok cfg env k cfg.retry_attempts 0 st m hk hfail hok
    refine ⟨hsb, ?_⟩
    intro query
    exact capture_of_setup_ok cfg env test query st _ hsb
  · intro hA hfail
    rw [ScreenshotManager._setup_browser]
    exact setupGo_all_fail cfg env cfg.retry_attempts 0 st m hA hfail
  · intro hA hqs hfail
    have hsb : ScreenshotManager._setup_browser cfg env st =
        (some (Except.error (m (cfg.retry_attempts - 1))),
          { st with launches := st.launches + cfg.retry_attempts, time := st.time + (cfg.retry_attempts - 1) * cfg.retry_delay, events := st.events ++ retryTrail cfg m 0 (cfg.retry_attempts - 1) }) := by
      rw [ScreenshotManager._setup_browser]
      exact setupGo_all_fail cfg env cfg.retry_attempts 0 st m hA hfail
    have hcapture : ScreenshotManager.capture cfg env test q st =
        (Except.error (m (cfg.retry_attempts - 1)),
          { st with launches := st.launches + cfg.retry_attempts, time := st.time + (cfg.retry_attempts - 1) * cfg.retry_delay, events := st.events ++ retryTrail cfg m 0 (cfg.retry_attempts - 1) }) := by
      simp only [ScreenshotManager.capture, hsb]
    have hstep : runStep cfg env test q st =
        (Except.error (m (cfg.retry_attempts - 1)),
          { st with launches := st.launches + cfg.retry_attempts, time := st.time + (cfg.retry_attempts - 1) * cfg.retry_delay, events := st.events ++ retryTrail cfg m 0 (cfg.retry_attempts - 1) }) := by
      simp only [runStep, hcapture]
    have hq : runQueries cfg env test (q :: rest) [] st =
        ((some (m (cfg.retry_attempts - 1)), []),
          { st with launches := st.launches + cfg.retry_attempts, time := st.time + (cfg.retry_attempts - 1) * cfg.retry_delay, events := st.events ++ retryTrail cfg m 0 (cfg.retry_attempts - 1) }) := by
      simp only [runQueries, hstep]
    constructor
    · simp only [TestRunner.run, hqs, hq]
    · simp only [TestRunner.run, hqs, hq]

/-- C5 witness: with every launch attempt failing (`retry_attempts = 3`),
a one-query run reports the third attempt's message and no query
results. -/
theorem setup_retry_spec_witness :
    (TestRunner.run cfgW envNoLaunch testW st0).1.error =
      some ("no browser " ++ toString 2) ∧
    (TestRunner.run cfgW envNoLaunch testW st0).1.query_results = [] :=
  (setup_retry_spec cfgW envNoLaunch st0
    (fun i => "no browser " ++ toString i) testW qStatic []).2.2
    (by decide) rfl
    (fun j hj => by
      have h3 : j < 3 := hj
      interval_cases j <;> rfl)
